import Mathlib

/-!
Verification development for the `bsdec2-image-upload` tool (single source
file `main.c`).  The definitions below are a shallow embedding of the
functions of `main.c`: strings are modelled as `List Char`, C's
`strstr`/`strchr`/`strcspn` become the list-search functions below, and the
outcomes of external calls (TLS transport, signing library, entropy source)
are supplied as oracle parameters.  Machine integers (`off_t`, `uint64_t`,
`size_t`) are modelled as `Nat`; none of the modelled arithmetic can
overflow for representable file sizes, since the C code uses 64-bit types.
-/

namespace BsdEc2ImageUpload

/-! ### C string-search primitives

`splitAtChar` models `strchr`: it splits a string at the first occurrence of
a character, returning the parts before and after it (or `none` if absent).
`splitAtSub` models `strstr`: it splits at the first occurrence of a
substring, returning the part before it and the part after it. -/

def splitAtChar (ch : Char) : List Char → Option (List Char × List Char)
  | [] => none
  | c :: cs =>
    if c = ch then some ([], cs)
    else
      match splitAtChar ch cs with
      | none => none
      | some (pre, post) => some (c :: pre, post)

def splitAtSub (needle : List Char) : List Char → Option (List Char × List Char)
  | [] => if needle = [] then some ([], []) else none
  | c :: cs =>
    if needle.isPrefixOf (c :: cs) then some ([], (c :: cs).drop needle.length)
    else
      match splitAtSub needle cs with
      | none => none
      | some (pre, post) => some (c :: pre, post)

/-- Model of `strstr(s, needle) != NULL`. -/
def hasSub (needle s : List Char) : Bool := (splitAtSub needle s).isSome

/-! ### `xmlextracts` / `xmlextract` (main.c lines 654-769)

`xmlextracts` repeatedly finds `<tag>`...`</tag>` pairs, failing if an
opening tag has no matching closing tag; `xmlextract` returns the contents
of the first pair, failing when there is none or when `xmlextracts` fails.
The fuel argument only bounds the number of loop iterations; every iteration
consumes at least one character of the remaining string, so the fuel
`s.length + 1` used by `xmlextract` never runs out. -/

def xmlextracts (tag : List Char) : Nat → List Char → Option (List (List Char))
  | 0, _ => none
  | fuel + 1, s =>
    match splitAtSub ('<' :: (tag ++ ">".toList)) s with
    | none => some []
    | some (_, rest) =>
      match splitAtSub ("</".toList ++ (tag ++ ">".toList)) rest with
      | none => none
      | some (contents, after) =>
        match xmlextracts tag fuel after with
        | none => none
        | some vs => some (contents :: vs)

def xmlextract (tag s : List Char) : Option (List Char) :=
  match xmlextracts tag (s.length + 1) s with
  | none => none
  | some [] => none
  | some (v :: _) => some v

/-! ### `encodeamp` (main.c lines 31-67)

Replaces every `'&'` by the five characters `&amp;`, leaving every other
byte unchanged, in order. -/

def encodeamp : List Char → List Char
  | [] => []
  | c :: cs =>
    if c = '&' then '&' :: 'a' :: 'm' :: 'p' :: ';' :: encodeamp cs
    else c :: encodeamp cs

/-- Specification-side predicate: every `'&'` in the string is immediately
followed by the literal text `amp;` (no unescaped ampersand remains). -/
def ampEscaped : List Char → Bool
  | [] => true
  | c :: cs =>
    if c = '&' then
      match cs with
      | 'a' :: 'm' :: 'p' :: ';' :: rest => ampEscaped rest
      | _ => false
    else ampEscaped cs

/-- Specification-side inverse of ampersand escaping: replaces each
occurrence of `&amp;` (scanning left to right) by a single `'&'`.  Used to
state that `encodeamp` keeps all non-ampersand bytes unchanged and in
order. -/
def unescapeAmp : List Char → List Char
  | [] => []
  | c :: cs =>
    if c = '&' then
      match cs with
      | 'a' :: 'm' :: 'p' :: ';' :: rest => '&' :: unescapeAmp rest
      | x => c :: unescapeAmp x
    else c :: unescapeAmp cs

/-! ### `readkeys` (main.c lines 69-154)

The credential file is a list of characters.  `readkeysGo` is the
`while (fgets(...))` loop fused with `fgets` itself: `cap` is the remaining
capacity of the 1024-byte `fgets` buffer (1023 data characters), `cur` the
characters read so far into the buffer for the current chunk.  A chunk is
complete when a newline arrives or the buffer is full; `processLine` models
the body of the loop on one chunk (`strcspn` truncation at the first CR/LF,
`strchr` split at `'='`, key-name comparison), and `applyLine` models the
effect on the two key variables, with `none` for the error exits and a
`Bool` telling whether the loop continues (a chunk with no EOL character
prints a warning and breaks out of the loop -- it does not fail). -/

def eolFree (c : Char) : Bool := !(c == '\r' || c == '\n')

inductive LineResult where
  | missingEol
  | malformed
  | keyId (v : List Char)
  | keySecret (v : List Char)
deriving DecidableEq

def processLine (chunk : List Char) : LineResult :=
  let p := chunk.takeWhile eolFree
  if p.length = chunk.length then LineResult.missingEol
  else
    match splitAtChar '=' p with
    | none => LineResult.malformed
    | some (name, v) =>
      if name = "ACCESS_KEY_ID".toList then LineResult.keyId v
      else if name = "ACCESS_KEY_SECRET".toList then LineResult.keySecret v
      else LineResult.malformed

def applyLine : LineResult → Option (List Char) → Option (List Char) →
    Option (Bool × Option (List Char) × Option (List Char))
  | LineResult.missingEol, kid, ks => some (false, kid, ks)
  | LineResult.malformed, _, _ => none
  | LineResult.keyId v, kid, ks =>
    match kid with
    | some _ => none
    | none => some (true, some v, ks)
  | LineResult.keySecret v, kid, ks =>
    match ks with
    | some _ => none
    | none => some (true, kid, some v)

def readkeysGo : List Char → Nat → List Char → Option (List Char) → Option (List Char) →
    Option (Option (List Char) × Option (List Char))
  | [], _, cur, kid, ks =>
    if cur = [] then some (kid, ks)
    else
      match applyLine (processLine cur) kid ks with
      | none => none
      | some (_, kid2, ks2) => some (kid2, ks2)
  | c :: cs, cap, cur, kid, ks =>
    if c = '\n' ∨ cap ≤ 1 then
      match applyLine (processLine (cur ++ [c])) kid ks with
      | none => none
      | some (cont, kid2, ks2) =>
        if cont then readkeysGo cs 1023 [] kid2 ks2
        else some (kid2, ks2)
    else readkeysGo cs (cap - 1) (cur ++ [c]) kid ks

/-- `readkeys`: parse the credential file; succeed exactly when the loop did
not hit an error exit and both keys ended up set. -/
def readkeys (file : List Char) : Option (List Char × List Char) :=
  match readkeysGo file 1023 [] none none with
  | none => none
  | some (kid, ks) =>
    match kid, ks with
    | some i, some s => some (i, s)
    | _, _ => none

/-- One complete-chunk step of the `readkeys` loop (the body of
`readkeysGo` once a chunk is complete), named for reuse in proofs. -/
def lineStep (chunk rest : List Char) (kid ks : Option (List Char)) :
    Option (Option (List Char) × Option (List Char)) :=
  match applyLine (processLine chunk) kid ks with
  | none => none
  | some (cont, kid2, ks2) =>
    if cont then readkeysGo rest 1023 [] kid2 ks2
    else some (kid2, ks2)

/-- A string with no CR/LF character. -/
@[reducible]
def noEol (l : List Char) : Prop := ∀ c ∈ l, eolFree c = true

/-- A credential file assembled from a list of newline-terminated lines
followed by an arbitrary unterminated remainder (`tail = []` for a fully
terminated file). -/
def mkFile : List (List Char) → List Char → List Char
  | [], tail => tail
  | l :: rest, tail => l ++ '\n' :: mkFile rest tail

/-- Classification of one (already truncated) line: `some (false, v)` for
`ACCESS_KEY_ID=v`, `some (true, v)` for `ACCESS_KEY_SECRET=v`, `none` for
a line that is of neither form (no `'='`, or any other key name). -/
def lineClass (l : List Char) : Option (Bool × List Char) :=
  match splitAtChar '=' l with
  | none => none
  | some (name, v) =>
    if name = "ACCESS_KEY_ID".toList then some (false, v)
    else if name = "ACCESS_KEY_SECRET".toList then some (true, v)
    else none

/-- Line-level reference semantics of the `readkeys` loop over a list of
terminated lines: process lines in order, failing on a line of neither
key form or on a duplicated key, otherwise recording the key value. -/
def applyLines : List (List Char) → Option (List Char) → Option (List Char) →
    Option (Option (List Char) × Option (List Char))
  | [], kid, ks => some (kid, ks)
  | l :: rest, kid, ks =>
    match lineClass l with
    | none => none
    | some (false, v) =>
      match kid with
      | some _ => none
      | none => applyLines rest (some v) ks
    | some (true, v) =>
      match ks with
      | some _ => none
      | none => applyLines rest kid (some v)

/-- The values of the `ACCESS_KEY_ID` lines among `lines`, in order. -/
def idValues : List (List Char) → List (List Char)
  | [] => []
  | l :: rest =>
    match lineClass l with
    | some (false, v) => v :: idValues rest
    | _ => idValues rest

/-- The values of the `ACCESS_KEY_SECRET` lines among `lines`, in order. -/
def secretValues : List (List Char) → List (List Char)
  | [] => []
  | l :: rest =>
    match lineClass l with
    | some (true, v) => v :: secretValues rest
    | _ => secretValues rest

/-! ### `s3_put` endpoint selection (main.c lines 203-210) -/

def s3_host (region : List Char) : List Char :=
  if region = "us-east-1".toList then "s3.amazonaws.com".toList
  else "s3.".toList ++ region ++ ".amazonaws.com".toList

/-! ### Bounded retry wrappers (main.c lines 265-281 and 635-652)

`attempt i` is the outcome of the `i`-th invocation (0-based) of the
underlying single-attempt operation; the second component of the result is
the number of invocations actually issued. -/

def s3_put_loop_go (attempt : Nat → Bool) : Nat → Nat → Bool × Nat
  | 0, i => (false, i)
  | n + 1, i => if attempt i then (true, i + 1) else s3_put_loop_go attempt n (i + 1)

def s3_put_loop (attempt : Nat → Bool) : Bool × Nat := s3_put_loop_go attempt 10 0

def ec2_apicall_loop_go (attempt : Nat → Option (List Char)) :
    Nat → Nat → Option (List Char) × Nat
  | 0, i => (none, i)
  | n + 1, i =>
    match attempt i with
    | some body => (some body, i + 1)
    | none => ec2_apicall_loop_go attempt n (i + 1)

def ec2_apicall_loop (attempt : Nat → Option (List Char)) : Option (List Char) × Nat :=
  ec2_apicall_loop_go attempt 10 0

/-! ### `uploadvolume` (main.c lines 283-518)

`PARTSZ` is the fixed part size.  `partsLoop` is the part loop
`for (pos = 0; pos < sb.st_size; pos += buflen)` with the narrowing
`if (sb.st_size - pos < buflen) buflen = sb.st_size - pos;`; it emits one
`(pos, buflen)` pair per iteration.  The loop runs at most `size`
iterations (each one advances `pos` by at least one byte), so fuel `size`
is exact.  `partRanges` gives the `start`/`end` attributes written into
each `<byte-range>` element of the manifest (`pos` and `pos + buflen - 1`),
`manifestPartCount` and `manifestVolumeSize` the values written into the
manifest header. -/

def PARTSZ : Nat := 10 * 1024 * 1024

def partsLoop : Nat → Nat → Nat → Nat → List (Nat × Nat)
  | 0, _, _, _ => []
  | fuel + 1, size, pos, buflen =>
    if pos < size then
      if size - pos < buflen then
        (pos, size - pos) :: partsLoop fuel size (pos + (size - pos)) (size - pos)
      else
        (pos, buflen) :: partsLoop fuel size (pos + buflen) buflen
    else []

def uploadParts (size : Nat) : List (Nat × Nat) := partsLoop size size 0 PARTSZ

def manifestPartCount (size : Nat) : Nat := (size + PARTSZ - 1) / PARTSZ

def manifestVolumeSize (size : Nat) : Nat := (size + (1 <<< 30) - 1) / (1 <<< 30)

def partRanges (size : Nat) : List (Nat × Nat) :=
  (uploadParts size).map (fun p => (p.1, p.1 + p.2 - 1))

def partStart (size i : Nat) : Nat := ((partRanges size).getD i (0, 0)).1

def partEnd (size i : Nat) : Nat := ((partRanges size).getD i (0, 0)).2

/-- The S3 object path of part `idx` (main.c line 383). -/
def partPath (noncehex : List Char) (idx : Nat) : List Char :=
  '/' :: (noncehex ++ "/part".toList ++ (Nat.repr idx).toList)

/-- The S3 object path of the manifest (main.c lines 326 and 483). -/
def manifestPath (noncehex : List Char) : List Char :=
  '/' :: (noncehex ++ "/manifest.xml".toList)

/-- The part-upload loop, at the granularity of external PUT outcomes:
`s3ok path` is the eventual outcome of `s3_put_loop` for `path`.  Returns
the list of part paths that were PUT (in order, ending at the first
failure) and whether all part PUTs succeeded. -/
def putParts (noncehex : List Char) (s3ok : List Char → Bool) :
    List (Nat × Nat) → List (List Char) × Bool
  | [] => ([], true)
  | p :: rest =>
    if s3ok (partPath noncehex (p.1 / PARTSZ)) then
      (partPath noncehex (p.1 / PARTSZ) :: (putParts noncehex s3ok rest).1,
       (putParts noncehex s3ok rest).2)
    else ([partPath noncehex (p.1 / PARTSZ)], false)

/-- The part PUTs issued by `uploadvolume` for an object of length `size`. -/
def uploadvolume_partPuts (size : Nat) (noncehex : List Char)
    (s3ok : List Char → Bool) : List (List Char) :=
  (putParts noncehex s3ok (uploadParts size)).1

/-- Whether `uploadvolume` reaches the manifest PUT (all part PUTs
succeeded). -/
def uploadvolume_manifestPutIssued (size : Nat) (noncehex : List Char)
    (s3ok : List Char → Bool) : Bool :=
  (putParts noncehex s3ok (uploadParts size)).2

/-- Result of `uploadvolume`: the manifest path and the object size on
success, `none` if a part PUT or the manifest PUT failed. -/
def uploadvolume (size : Nat) (noncehex : List Char) (s3ok : List Char → Bool) :
    Option (List Char × Nat) :=
  if (putParts noncehex s3ok (uploadParts size)).2 then
    if s3ok (manifestPath noncehex) then some (manifestPath noncehex, size)
    else none
  else none

/-! ### `waitforimport` (main.c lines 913-1000)

One iteration of the polling loop, as a function of the
`DescribeConversionTasks` response body. -/

inductive ImportPollStep where
  | done (volid : List Char)
  | keepPolling (status : List Char)
  | fail
deriving DecidableEq

/-- The `<statusMessage>` tail of the loop body: missing tag is the error
exit `err3`, otherwise the loop prints the status and polls again. -/
def importStatusStep (resp : List Char) : ImportPollStep :=
  match xmlextract "statusMessage".toList resp with
  | none => ImportPollStep.fail
  | some m => ImportPollStep.keepPolling m

def waitforimport_step (resp : List Char) : ImportPollStep :=
  match xmlextract "volume".toList resp with
  | none => ImportPollStep.fail
  | some volume =>
    if hasSub "<state>active</state>".toList resp then importStatusStep resp
    else
      match xmlextract "id".toList volume with
      | some volid => ImportPollStep.done volid
      | none => importStatusStep resp

/-! ### `waitforsnapshot` (main.c lines 1049-1124)

One iteration classifies the `DescribeSnapshots` response body; the run
function iterates over a stream of response bodies (`resps i` is the body
of the `i`-th status query), returning the success flag, the number of
status queries issued and the number of progress dots printed.  The fuel
only truncates the unbounded C loop; `none` means the loop was still
running after `fuel` iterations. -/

inductive SnapPollStep where
  | done
  | dot
  | fail
deriving DecidableEq

def waitforsnapshot_step (resp : List Char) : SnapPollStep :=
  match xmlextract "status".toList resp with
  | none => SnapPollStep.fail
  | some st =>
    if st = "completed".toList then SnapPollStep.done
    else if st = "pending".toList then SnapPollStep.dot
    else SnapPollStep.fail

def waitforsnapshot_run (resps : Nat → List Char) : Nat → Nat → Nat →
    Option (Bool × Nat × Nat)
  | 0, _, _ => none
  | fuel + 1, i, dots =>
    match waitforsnapshot_step (resps i) with
    | SnapPollStep.done => some (true, i + 1, dots)
    | SnapPollStep.fail => some (false, i + 1, dots)
    | SnapPollStep.dot => waitforsnapshot_run resps fuel (i + 1) (dots + 1)

/-! ### `sns_publish` region extraction (main.c lines 1557-1564) -/

def sns_region (topicarn : List Char) : List Char :=
  (topicarn.drop 12).takeWhile (fun c => !(c == ':'))

/-! ### `main` control flow (main.c lines 1683-1900)

Each field of `MainEnv` is the outcome of one stage's external call(s);
`mainRun` follows the chain of `if (...) { warnp(...); exit(1); }` blocks.
The result is the process exit status together with whether the
"Failed to send SNS notification" diagnostic was printed.  `publishOk` (the
outcome of `sns_publish`) is a separate parameter so that independence of
the exit status from it can be stated directly. -/

structure MainEnv where
  readkeysOk : Bool
  regionsOk : Bool
  uploadOk : Bool
  importOk : Bool
  importWaitOk : Bool
  snapshotOk : Bool
  snapshotWaitOk : Bool
  deleteVolumeOk : Bool
  snapPublicOk : Bool
  registerOk : Bool
  amiWaitOk : Bool
  copiesOk : Bool
  copyWaitsOk : Bool
  makePublicOk : Bool
deriving DecidableEq

def mainRun (publicFlag publicsnapFlag hasTopic : Bool) (e : MainEnv)
    (publishOk : Bool) : Nat × Bool :=
  if !e.readkeysOk then (1, false)
  else if !e.regionsOk then (1, false)
  else if !e.uploadOk then (1, false)
  else if !e.importOk then (1, false)
  else if !e.importWaitOk then (1, false)
  else if !e.snapshotOk then (1, false)
  else if !e.snapshotWaitOk then (1, false)
  else if !e.deleteVolumeOk then (1, false)
  else if publicsnapFlag && !e.snapPublicOk then (1, false)
  else if !e.registerOk then (1, false)
  else if !e.amiWaitOk then (1, false)
  else if !publicFlag then (0, false)
  else if !e.copiesOk then (1, false)
  else if !e.copyWaitsOk then (1, false)
  else if !e.makePublicOk then (1, false)
  else if hasTopic then (0, !publishOk)
  else (0, false)

/-- All stages up to (and excluding) the SNS publication succeeded. -/
def stagesOk (e : MainEnv) : Prop :=
  e.readkeysOk = true ∧ e.regionsOk = true ∧ e.uploadOk = true ∧
  e.importOk = true ∧ e.importWaitOk = true ∧ e.snapshotOk = true ∧
  e.snapshotWaitOk = true ∧ e.deleteVolumeOk = true ∧ e.snapPublicOk = true ∧
  e.registerOk = true ∧ e.amiWaitOk = true ∧ e.copiesOk = true ∧
  e.copyWaitsOk = true ∧ e.makePublicOk = true

/-- An environment in which every stage succeeds. -/
def envAllOk : MainEnv :=
  ⟨true, true, true, true, true, true, true, true, true, true, true, true, true, true⟩

/-! ### Concrete response bodies used as test inputs -/

/-- A `DescribeConversionTasks` body in which the task has entered the
explicit error status `cancelled` (so the `<state>active</state>` marker is
absent), the `<volume>` element carries no `<id>`, and a
`<statusMessage>` explains the failure. -/
def importErrorBody : List Char :=
  ("<conversionTask><state>cancelled</state><volume><size>10</size></volume>"
    ++ "<statusMessage>import failed</statusMessage></conversionTask>").toList

def pendingBody : List Char := "<status>pending</status>".toList

def completedBody : List Char := "<status>completed</status>".toList

def errorBody : List Char := "<status>error</status>".toList

/-- The credential file `ACCESS_KEY_ID=x\nACCESS_KEY_SECRET=y\nZ`: both keys
are present, and the final line `Z` is missing its newline terminator (and
is not of the form `KEY=value`). -/
def cexKeyFile : List Char := "ACCESS_KEY_ID=x\nACCESS_KEY_SECRET=y\nZ".toList

/-- The full correctness property of the part decomposition of an object of
length `size`, as declared in the manifest: the number of `<part>` blocks
matches the declared count, the declared count is the ceiling of
`size / PARTSZ` (characterized by the two multiplicative bounds), the byte
ranges start at 0, are contiguous, end at `size - 1`, the final part has
length `size - (count - 1) * PARTSZ`, every byte below `size` lies in
exactly one range, and no byte lies in two ranges. -/
def uploadPartsOK (size : Nat) : Prop :=
  (partRanges size).length = manifestPartCount size ∧
  PARTSZ * (manifestPartCount size - 1) < size ∧
  size ≤ PARTSZ * manifestPartCount size ∧
  partStart size 0 = 0 ∧
  partEnd size (manifestPartCount size - 1) = size - 1 ∧
  partEnd size (manifestPartCount size - 1) + 1
      - partStart size (manifestPartCount size - 1)
    = size - (manifestPartCount size - 1) * PARTSZ ∧
  (∀ i, i + 1 < manifestPartCount size → partStart size (i + 1) = partEnd size i + 1) ∧
  (∀ b, b < size ↔ ∃ i, i < manifestPartCount size ∧
      partStart size i ≤ b ∧ b ≤ partEnd size i) ∧
  (∀ i j b, i < j → j < manifestPartCount size →
    ¬(partStart size i ≤ b ∧ b ≤ partEnd size i ∧
      partStart size j ≤ b ∧ b ≤ partEnd size j))

/-! ## Theorems -/

/-! ### `encodeamp` (claim C5) -/

theorem ampEscaped_cons_ne (c : Char) (l : List Char) (h : ¬c = '&') :
    ampEscaped (c :: l) = ampEscaped l := by
  rw [ampEscaped.eq_def]
  simp [h]

theorem ampEscaped_amp (l : List Char) :
    ampEscaped ('&' :: 'a' :: 'm' :: 'p' :: ';' :: l) = ampEscaped l := rfl

theorem unescapeAmp_cons_ne (c : Char) (l : List Char) (h : ¬c = '&') :
    unescapeAmp (c :: l) = c :: unescapeAmp l := by
  rw [unescapeAmp.eq_def]
  simp [h]

theorem unescapeAmp_amp (l : List Char) :
    unescapeAmp ('&' :: 'a' :: 'm' :: 'p' :: ';' :: l) = '&' :: unescapeAmp l := rfl

theorem encodeamp_length (s : List Char) :
    (encodeamp s).length = s.length + 4 * s.count '&' := by
  induction s with
  | nil => rfl
  | cons c cs ih =>
    by_cases hc : c = '&'
    · subst hc
      simp [encodeamp, List.count_cons, ih]
      omega
    · simp [encodeamp, hc, List.count_cons, ih]
      omega

theorem ampEscaped_encodeamp (s : List Char) : ampEscaped (encodeamp s) = true := by
  induction s with
  | nil => rfl
  | cons c cs ih =>
    by_cases hc : c = '&'
    · subst hc
      rw [encodeamp, if_pos rfl, ampEscaped_amp]
      exact ih
    · rw [encodeamp, if_neg hc, ampEscaped_cons_ne c _ hc]
      exact ih

theorem unescapeAmp_encodeamp (s : List Char) : unescapeAmp (encodeamp s) = s := by
  induction s with
  | nil => rfl
  | cons c cs ih =>
    by_cases hc : c = '&'
    · subst hc
      rw [encodeamp, if_pos rfl, unescapeAmp_amp, ih]
    · rw [encodeamp, if_neg hc, unescapeAmp_cons_ne c _ hc, ih]

/-- C5: for every input string `s`, `encodeamp` produces an output whose
length exceeds `s` by exactly 4 bytes per `'&'` character of `s`, every
`'&'` of the output is immediately followed by the literal `amp;` (so no
unescaped ampersand is ever introduced), and undoing the escaping
recovers `s` exactly (all non-`'&'` bytes are kept unchanged, in order). -/
theorem encodeamp_escaping (s : List Char) :
    (encodeamp s).length = s.length + 4 * s.count '&' ∧
    ampEscaped (encodeamp s) = true ∧
    unescapeAmp (encodeamp s) = s :=
  ⟨encodeamp_length s, ampEscaped_encodeamp s, unescapeAmp_encodeamp s⟩

/-! ### Generic `takeWhile` helper -/

theorem takeWhile_append_stop {p : Char → Bool} (l : List Char) (d : Char)
    (t : List Char) (hl : ∀ c ∈ l, p c = true) (hd : p d = false) :
    (l ++ d :: t).takeWhile p = l := by
  induction l with
  | nil => simp [List.takeWhile_cons, hd]
  | cons c cs ih =>
    have hc := hl c (by simp)
    simp [List.takeWhile_cons, hc, ih (fun x hx => hl x (by simp [hx]))]

/-! ### Region extraction in `sns_publish` (claim C7) -/

/-- C7: the signing region is extracted from the topic ARN by skipping the
12-byte prefix `arn:aws:sns:` and taking the characters up to the next
colon; for every ARN of the form `arn:aws:sns:<region>:<rest>` (with no
colon inside `<region>`), the extracted region is exactly `<region>`. -/
theorem sns_region_extract (r rest : List Char) (h : ':' ∉ r) :
    sns_region ("arn:aws:sns:".toList ++ (r ++ ':' :: rest)) = r := by
  unfold sns_region
  have h12 : ("arn:aws:sns:".toList).length = 12 := rfl
  rw [← h12, List.drop_left]
  refine takeWhile_append_stop r ':' rest ?_ (by decide)
  intro c hc
  have hcne : c ≠ ':' := fun e => h (e ▸ hc)
  simp [hcne]

/-- Witness for C7: `arn:aws:sns:eu-west-1:...` yields `eu-west-1`. -/
theorem sns_region_extract_witness :
    sns_region ("arn:aws:sns:".toList
        ++ ("eu-west-1".toList ++ ':' :: "123456789012:releases".toList))
      = "eu-west-1".toList :=
  sns_region_extract ("eu-west-1".toList) ("123456789012:releases".toList) (by decide)

/-! ### S3 endpoint selection (claim C9) -/

/-- C9: the storage PUT hostname is `s3.<region>.amazonaws.com` for every
region other than `us-east-1`, and the non-regionalized `s3.amazonaws.com`
exactly for `us-east-1` (no other region maps to the non-regionalized
hostname). -/
theorem s3_host_endpoints (r : List Char) :
    (r = "us-east-1".toList → s3_host r = "s3.amazonaws.com".toList) ∧
    (r ≠ "us-east-1".toList →
      s3_host r = "s3.".toList ++ r ++ ".amazonaws.com".toList) ∧
    (s3_host r = "s3.amazonaws.com".toList ↔ r = "us-east-1".toList) := by
  refine ⟨fun h => by rw [s3_host, if_pos h], fun h => by rw [s3_host, if_neg h],
    ?_, ?_⟩
  · intro h
    by_contra hne
    rw [s3_host, if_neg hne] at h
    have hlen := congrArg List.length h
    have e1 : ("s3.".toList).length = 3 := rfl
    have e2 : (".amazonaws.com".toList).length = 14 := rfl
    have e3 : ("s3.amazonaws.com".toList).length = 16 := rfl
    simp only [List.length_append, e1, e2, e3] at hlen
    omega
  · intro h
    rw [s3_host, if_pos h]

/-- Witness for C9, at the regions `eu-west-1` and `us-east-1`. -/
theorem s3_host_endpoints_witness :
    s3_host ("eu-west-1".toList)
        = "s3.".toList ++ "eu-west-1".toList ++ ".amazonaws.com".toList ∧
    s3_host ("us-east-1".toList) = "s3.amazonaws.com".toList :=
  ⟨(s3_host_endpoints ("eu-west-1".toList)).2.1 (by decide),
   (s3_host_endpoints ("us-east-1".toList)).1 rfl⟩

/-! ### Bounded retry wrappers (claim C2) -/

theorem s3_put_loop_go_calls (a : Nat → Bool) :
    ∀ n i, (s3_put_loop_go a n i).2 ≤ n + i := by
  intro n
  induction n with
  | zero => intro i; simp [s3_put_loop_go]
  | succ m ih =>
    intro i
    rw [s3_put_loop_go]
    by_cases h : a i = true
    · rw [if_pos h]
      simp
      omega
    · rw [if_neg h]
      have := ih (i + 1)
      omega

theorem s3_put_loop_go_false_iff (a : Nat → Bool) :
    ∀ n i, (s3_put_loop_go a n i).1 = false ↔
      ∀ j, i ≤ j → j < n + i → a j = false := by
  intro n
  induction n with
  | zero =>
    intro i
    constructor
    · intro _ j h1 h2
      omega
    · intro _
      simp [s3_put_loop_go]
  | succ m ih =>
    intro i
    rw [s3_put_loop_go]
    by_cases h : a i = true
    · rw [if_pos h]
      constructor
      · intro hfalse
        exact absurd hfalse (by simp)
      · intro hall
        exact absurd (hall i le_rfl (by omega)) (by simp [h])
    · rw [if_neg h]
      rw [ih (i + 1)]
      constructor
      · intro hall j h1 h2
        by_cases hj : j = i
        · subst hj
          simpa using h
        · exact hall j (by omega) (by omega)
      · intro hall j h1 h2
        exact hall j (by omega) (by omega)

theorem s3_put_loop_go_first (a : Nat → Bool) :
    ∀ n i k, i ≤ k → k < n + i → a k = true →
      (∀ j, i ≤ j → j < k → a j = false) →
      s3_put_loop_go a n i = (true, k + 1) := by
  intro n
  induction n with
  | zero =>
    intro i k h1 h2 h3 h4
    omega
  | succ m ih =>
    intro i k h1 h2 h3 h4
    rw [s3_put_loop_go]
    by_cases hik : k = i
    · subst hik
      rw [if_pos h3]
    · have hai : ¬a i = true := by
        rw [h4 i le_rfl (by omega)]
        simp
      rw [if_neg hai]
      exact ih (i + 1) k (by omega) (by omega) h3 (fun j hj1 hj2 => h4 j (by omega) hj2)

theorem ec2_apicall_loop_go_calls (e : Nat → Option (List Char)) :
    ∀ n i, (ec2_apicall_loop_go e n i).2 ≤ n + i := by
  intro n
  induction n with
  | zero => intro i; simp [ec2_apicall_loop_go]
  | succ m ih =>
    intro i
    rw [ec2_apicall_loop_go]
    cases hai : e i with
    | some b =>
      show i + 1 ≤ m + 1 + i
      omega
    | none =>
      show (ec2_apicall_loop_go e m (i + 1)).2 ≤ m + 1 + i
      have := ih (i + 1)
      omega

theorem ec2_apicall_loop_go_none_iff (e : Nat → Option (List Char)) :
    ∀ n i, (ec2_apicall_loop_go e n i).1 = none ↔
      ∀ j, i ≤ j → j < n + i → e j = none := by
  intro n
  induction n with
  | zero =>
    intro i
    constructor
    · intro _ j h1 h2
      omega
    · intro _
      simp [ec2_apicall_loop_go]
  | succ m ih =>
    intro i
    rw [ec2_apicall_loop_go]
    cases hai : e i with
    | some b =>
      show some b = none ↔ ∀ j, i ≤ j → j < m + 1 + i → e j = none
      constructor
      · intro hfalse
        exact absurd hfalse (by simp)
      · intro hall
        exact absurd (hall i le_rfl (by omega)) (by simp [hai])
    | none =>
      show (ec2_apicall_loop_go e m (i + 1)).1 = none ↔
        ∀ j, i ≤ j → j < m + 1 + i → e j = none
      rw [ih (i + 1)]
      constructor
      · intro hall j h1 h2
        by_cases hj : j = i
        · subst hj
          exact hai
        · exact hall j (by omega) (by omega)
      · intro hall j h1 h2
        exact hall j (by omega) (by omega)

theorem ec2_apicall_loop_go_first (e : Nat → Option (List Char)) :
    ∀ n i k b, i ≤ k → k < n + i → e k = some b →
      (∀ j, i ≤ j → j < k → e j = none) →
      ec2_apicall_loop_go e n i = (some b, k + 1) := by
  intro n
  induction n with
  | zero =>
    intro i k b h1 h2 h3 h4
    omega
  | succ m ih =>
    intro i k b h1 h2 h3 h4
    rw [ec2_apicall_loop_go]
    by_cases hik : k = i
    · subst hik
      rw [h3]
    · have hei : e i = none := h4 i le_rfl (by omega)
      rw [hei]
      show ec2_apicall_loop_go e m (i + 1) = (some b, k + 1)
      exact ih (i + 1) k b (by omega) (by omega) h3
        (fun j hj1 hj2 => h4 j (by omega) hj2)

/-- C2: both bounded retry wrappers invoke the underlying single-attempt
operation at most 10 times; they fail exactly when all of the first 10
attempts fail; and as soon as attempt `k` (the first successful one)
succeeds, they return success having issued exactly `k + 1` attempts (no
further attempt is made).  `attempt i` / `e i` is the outcome of the
`i`-th invocation of `s3_put` / `ec2_apicall`. -/
theorem retry_loops_bounded (a : Nat → Bool) (e : Nat → Option (List Char)) :
    (s3_put_loop a).2 ≤ 10 ∧
    ((s3_put_loop a).1 = false ↔ ∀ j, j < 10 → a j = false) ∧
    (∀ k, k < 10 → a k = true → (∀ j, j < k → a j = false) →
      s3_put_loop a = (true, k + 1)) ∧
    (ec2_apicall_loop e).2 ≤ 10 ∧
    ((ec2_apicall_loop e).1 = none ↔ ∀ j, j < 10 → e j = none) ∧
    (∀ k b, k < 10 → e k = some b → (∀ j, j < k → e j = none) →
      ec2_apicall_loop e = (some b, k + 1)) := by
  refine ⟨?_, ?_, ?_, ?_, ?_, ?_⟩
  · simpa using s3_put_loop_go_calls a 10 0
  · rw [s3_put_loop, s3_put_loop_go_false_iff a 10 0]
    constructor
    · intro hall j hj
      exact hall j (by omega) (by omega)
    · intro hall j _ hj
      exact hall j (by omega)
  · intro k hk ha hprev
    exact s3_put_loop_go_first a 10 0 k (by omega) (by omega) ha
      (fun j _ hj => hprev j hj)
  · simpa using ec2_apicall_loop_go_calls e 10 0
  · rw [ec2_apicall_loop, ec2_apicall_loop_go_none_iff e 10 0]
    constructor
    · intro hall j hj
      exact hall j (by omega) (by omega)
    · intro hall j _ hj
      exact hall j (by omega)
  · intro k b hk he hprev
    exact ec2_apicall_loop_go_first e 10 0 k b (by omega) (by omega) he
      (fun j _ hj => hprev j hj)

/-- Witness for C2: an S3 attempt stream whose first success is attempt 2
yields success after exactly 3 calls, and an always-failing EC2 attempt
stream yields failure. -/
theorem retry_loops_bounded_witness :
    s3_put_loop (fun i => decide (i = 2)) = (true, 3) ∧
    (ec2_apicall_loop (fun _ => none)).1 = none := by
  constructor
  · exact (retry_loops_bounded (fun i => decide (i = 2)) (fun _ => none)).2.2.1 2
      (by decide) (by decide) (by decide)
  · exact ((retry_loops_bounded (fun i => decide (i = 2)) (fun _ => none)).2.2.2.2.1).mpr
      (fun j _ => rfl)

/-! ### Best-effort SNS publication (claim C8) -/

/-- C8: when every pipeline stage before the notification succeeds (public
path, topic provided), the process exit status is 0 regardless of the
outcome of `sns_publish`; a failed publish is reported (the diagnostic
flag is exactly the negation of the publish outcome) but does not change
the exit status. -/
theorem sns_publish_best_effort (snapFlag : Bool) (e : MainEnv) (b1 b2 : Bool)
    (h : stagesOk e) :
    (mainRun true snapFlag true e b1).1 = 0 ∧
    (mainRun true snapFlag true e b1).2 = !b1 ∧
    (mainRun true snapFlag true e b1).1 = (mainRun true snapFlag true e b2).1 := by
  obtain ⟨h1, h2, h3, h4, h5, h6, h7, h8, h9, h10, h11, h12, h13, h14⟩ := h
  simp [mainRun, h1, h2, h3, h4, h5, h6, h7, h8, h9, h10, h11, h12, h13, h14]

/-- Witness for C8: all stages succeed, publish fails, and the exit status
is still 0 while the failure is reported. -/
theorem sns_publish_best_effort_witness :
    (mainRun true true true envAllOk false).1 = 0 ∧
    (mainRun true true true envAllOk false).2 = true :=
  ⟨(sns_publish_best_effort true envAllOk false true
      ⟨rfl, rfl, rfl, rfl, rfl, rfl, rfl, rfl, rfl, rfl, rfl, rfl, rfl, rfl⟩).1,
   (sns_publish_best_effort true envAllOk false true
      ⟨rfl, rfl, rfl, rfl, rfl, rfl, rfl, rfl, rfl, rfl, rfl, rfl, rfl, rfl⟩).2.1⟩

/-! ### `uploadvolume` on an empty object (claim C10) -/

/-- C10: for a source object of length 0, `uploadvolume` issues no part PUT
at all, the manifest declares a parts count of 0 and a volume-size of 0,
the manifest object itself is still uploaded, and the function returns
success with the manifest path and size 0. -/
theorem uploadvolume_empty_object (noncehex : List Char) (s3ok : List Char → Bool)
    (h : s3ok (manifestPath noncehex) = true) :
    uploadvolume_partPuts 0 noncehex s3ok = [] ∧
    manifestPartCount 0 = 0 ∧
    manifestVolumeSize 0 = 0 ∧
    uploadvolume_manifestPutIssued 0 noncehex s3ok = true ∧
    uploadvolume 0 noncehex s3ok = some (manifestPath noncehex, 0) := by
  have hparts : uploadParts 0 = [] := rfl
  refine ⟨?_, by decide, by decide, ?_, ?_⟩
  · simp [uploadvolume_partPuts, hparts, putParts]
  · simp [uploadvolume_manifestPutIssued, hparts, putParts]
  · simp [uploadvolume, hparts, putParts, h]

/-- Witness for C10, with an oracle accepting every PUT. -/
theorem uploadvolume_empty_object_witness :
    uploadvolume_partPuts 0 [] (fun _ => true) = [] ∧
    uploadvolume 0 [] (fun _ => true) = some (manifestPath [], 0) :=
  ⟨(uploadvolume_empty_object [] (fun _ => true) rfl).1,
   (uploadvolume_empty_object [] (fun _ => true) rfl).2.2.2.2⟩

/-! ### Part decomposition in `uploadvolume` (claim C1) -/

theorem partsLoop_stop (fuel size pos b : Nat) (h : size ≤ pos) :
    partsLoop fuel size pos b = [] := by
  cases fuel with
  | zero => rfl
  | succ n =>
    rw [partsLoop]
    rw [if_neg (by omega)]

theorem getD_range_map {α : Type} (f : Nat → α) (n i : Nat) (d : α) (h : i < n) :
    ((List.range n).map f).getD i d = f i := by
  rw [List.getD_eq_getElem?_getD, List.getElem?_map, List.getElem?_range h]
  rfl

theorem partsLoop_closed : ∀ (fuel size pos : Nat), size - pos ≤ fuel →
    partsLoop fuel size pos PARTSZ =
      (List.range ((size - pos + PARTSZ - 1) / PARTSZ)).map
        (fun i => (pos + i * PARTSZ, min PARTSZ (size - pos - i * PARTSZ))) := by
  intro fuel
  induction fuel with
  | zero =>
    intro size pos h
    have h0 : size - pos = 0 := by omega
    rw [partsLoop, h0]
    have hc : (0 + PARTSZ - 1) / PARTSZ = 0 := by decide
    rw [hc]
    simp
  | succ n ih =>
    intro size pos h
    have hP1 : 0 < PARTSZ := by decide
    by_cases hp : pos < size
    · rw [partsLoop, if_pos hp]
      by_cases hshort : size - pos < PARTSZ
      · rw [if_pos hshort]
        rw [partsLoop_stop n size (pos + (size - pos)) (size - pos) (by omega)]
        have hc : (size - pos + PARTSZ - 1) / PARTSZ = 1 := by
          have h1 : size - pos + PARTSZ - 1 = (size - pos - 1) + PARTSZ := by omega
          rw [h1, Nat.add_div_right _ (by decide : 0 < PARTSZ),
            Nat.div_eq_of_lt (by omega)]
        rw [hc]
        have hm : min PARTSZ (size - pos) = size - pos := min_eq_right (by omega)
        have hr1 : List.range 1 = [0] := rfl
        simp [hr1, hm]
      · rw [if_neg hshort]
        rw [ih size (pos + PARTSZ) (by omega)]
        have hc : (size - pos + PARTSZ - 1) / PARTSZ
            = (size - (pos + PARTSZ) + PARTSZ - 1) / PARTSZ + 1 := by
          have h1 : size - pos + PARTSZ - 1
              = (size - (pos + PARTSZ) + PARTSZ - 1) + PARTSZ := by omega
          rw [h1, Nat.add_div_right _ (by decide : 0 < PARTSZ)]
        rw [hc, List.range_succ_eq_map, List.map_cons, List.map_map]
        congr 1
        · have hm : min PARTSZ (size - pos) = PARTSZ := min_eq_left (by omega)
          simp [hm]
        · congr 1
          funext i
          simp only [Function.comp_apply, Prod.mk.injEq]
          rw [Nat.succ_mul]
          constructor
          · omega
          · have harg : size - (pos + PARTSZ) - i * PARTSZ
                = size - pos - (i * PARTSZ + PARTSZ) := by omega
            rw [harg]
    · rw [partsLoop_stop (n + 1) size pos PARTSZ (by omega)]
      have h0 : size - pos = 0 := by omega
      rw [h0]
      have hc : (0 + PARTSZ - 1) / PARTSZ = 0 := by decide
      rw [hc]
      simp

theorem uploadParts_closed (size : Nat) :
    uploadParts size = (List.range (manifestPartCount size)).map
      (fun i => (i * PARTSZ, min PARTSZ (size - i * PARTSZ))) := by
  rw [uploadParts, partsLoop_closed size size 0 (by omega)]
  simp [manifestPartCount]

theorem partRanges_closed (size : Nat) :
    partRanges size = (List.range (manifestPartCount size)).map
      (fun i => (i * PARTSZ, i * PARTSZ + min PARTSZ (size - i * PARTSZ) - 1)) := by
  rw [partRanges, uploadParts_closed, List.map_map]
  rfl

theorem partRanges_length (size : Nat) :
    (partRanges size).length = manifestPartCount size := by
  rw [partRanges_closed]
  simp

theorem partStart_eq (size i : Nat) (h : i < manifestPartCount size) :
    partStart size i = i * PARTSZ := by
  rw [partStart, partRanges_closed, getD_range_map _ _ _ _ h]

theorem partEnd_eq (size i : Nat) (h : i < manifestPartCount size) :
    partEnd size i = i * PARTSZ + min PARTSZ (size - i * PARTSZ) - 1 := by
  rw [partEnd, partRanges_closed, getD_range_map _ _ _ _ h]

/-- C1: for every source object of positive length `size`, the manifest
declares a part count equal to the ceiling of `size / PARTSZ`, the declared
part count matches the number of `<part>` blocks, the byte ranges start at
0, are contiguous (each start is the previous end plus one), end at
`size - 1`, the final part's length is `size - (count - 1) * PARTSZ`, and
the ranges are non-overlapping with union exactly the bytes below
`size`. -/
theorem uploadvolume_part_ranges (size : Nat) (h : 0 < size) :
    uploadPartsOK size := by
  have hP : PARTSZ = 10485760 := rfl
  have hfin : ∀ i, i < manifestPartCount size →
      partStart size i = i * PARTSZ ∧
      partEnd size i = i * PARTSZ + min PARTSZ (size - i * PARTSZ) - 1 :=
    fun i hi => ⟨partStart_eq size i hi, partEnd_eq size i hi⟩
  have hcnt : manifestPartCount size = (size + PARTSZ - 1) / PARTSZ := rfl
  have hm : manifestPartCount size = (size + 10485760 - 1) / 10485760 := by
    rw [hcnt, hP]
  have hpos : 0 < manifestPartCount size := by
    rw [hm]
    omega
  have hlast : manifestPartCount size - 1 < manifestPartCount size := by omega
  refine ⟨partRanges_length size, ?_, ?_, ?_, ?_, ?_, ?_, ?_, ?_⟩
  · rw [hm, hP]
    omega
  · rw [hm, hP]
    omega
  · rw [(hfin 0 hpos).1]
    simp
  · rw [(hfin _ hlast).2]
    have hmc := min_choice PARTSZ (size - (manifestPartCount size - 1) * PARTSZ)
    have hml := min_le_left PARTSZ (size - (manifestPartCount size - 1) * PARTSZ)
    have hmr := min_le_right PARTSZ (size - (manifestPartCount size - 1) * PARTSZ)
    rw [hP] at hmc hml hmr ⊢
    omega
  · rw [(hfin _ hlast).1, (hfin _ hlast).2]
    have hmc := min_choice PARTSZ (size - (manifestPartCount size - 1) * PARTSZ)
    have hml := min_le_left PARTSZ (size - (manifestPartCount size - 1) * PARTSZ)
    have hmr := min_le_right PARTSZ (size - (manifestPartCount size - 1) * PARTSZ)
    rw [hP] at hmc hml hmr ⊢
    omega
  · intro i hi1
    have hi0 : i < manifestPartCount size := by omega
    rw [(hfin (i + 1) hi1).1, (hfin i hi0).2]
    have hmc := min_choice PARTSZ (size - i * PARTSZ)
    have hml := min_le_left PARTSZ (size - i * PARTSZ)
    have hmr := min_le_right PARTSZ (size - i * PARTSZ)
    rw [hP] at hmc hml hmr ⊢
    omega
  · intro b
    constructor
    · intro hb
      have hidx : b / PARTSZ < manifestPartCount size := by
        rw [hP, hm]
        omega
      refine ⟨b / PARTSZ, hidx, ?_, ?_⟩
      · rw [(hfin _ hidx).1, hP]
        omega
      · rw [(hfin _ hidx).2]
        have hmc := min_choice PARTSZ (size - b / PARTSZ * PARTSZ)
        have hml := min_le_left PARTSZ (size - b / PARTSZ * PARTSZ)
        have hmr := min_le_right PARTSZ (size - b / PARTSZ * PARTSZ)
        rw [hP] at hmc hml hmr ⊢
        omega
    · rintro ⟨i, hi, h1, h2⟩
      rw [(hfin i hi).1] at h1
      rw [(hfin i hi).2] at h2
      have hmc := min_choice PARTSZ (size - i * PARTSZ)
      have hml := min_le_left PARTSZ (size - i * PARTSZ)
      have hmr := min_le_right PARTSZ (size - i * PARTSZ)
      rw [hP] at h1 h2 hmc hml hmr
      omega
  · intro i j b hij hj
    rintro ⟨hi1, hi2, hj1, hj2⟩
    have hi : i < manifestPartCount size := by omega
    rw [(hfin i hi).1] at hi1
    rw [(hfin i hi).2] at hi2
    rw [(hfin j hj).1] at hj1
    rw [(hfin j hj).2] at hj2
    have hml := min_le_left PARTSZ (size - i * PARTSZ)
    rw [hP] at hi1 hi2 hj1 hj2 hml
    omega

/-- Witness for C1, at an object of length `PARTSZ + 1` (two parts, the
second of length 1). -/
theorem uploadvolume_part_ranges_witness :
    0 < PARTSZ + 1 ∧ uploadPartsOK (PARTSZ + 1) :=
  ⟨by decide, uploadvolume_part_ranges (PARTSZ + 1) (by decide)⟩

/-! ### Snapshot polling (claim C6) -/

theorem waitforsnapshot_step_completed (r : List Char)
    (h : xmlextract ("status".toList) r = some ("completed".toList)) :
    waitforsnapshot_step r = SnapPollStep.done := by
  unfold waitforsnapshot_step
  rw [h]
  decide

theorem waitforsnapshot_step_pending (r : List Char)
    (h : xmlextract ("status".toList) r = some ("pending".toList)) :
    waitforsnapshot_step r = SnapPollStep.dot := by
  unfold waitforsnapshot_step
  rw [h]
  decide

theorem waitforsnapshot_step_other (r : List Char) (st : List Char)
    (h : xmlextract ("status".toList) r = some st)
    (h1 : st ≠ "completed".toList) (h2 : st ≠ "pending".toList) :
    waitforsnapshot_step r = SnapPollStep.fail := by
  unfold waitforsnapshot_step
  rw [h]
  show (if st = "completed".toList then SnapPollStep.done
    else if st = "pending".toList then SnapPollStep.dot
    else SnapPollStep.fail) = SnapPollStep.fail
  rw [if_neg h1, if_neg h2]

theorem waitforsnapshot_advance (resps : Nat → List Char) :
    ∀ (k fuel i dots : Nat), k ≤ fuel →
      (∀ j, j < k → waitforsnapshot_step (resps (i + j)) = SnapPollStep.dot) →
      waitforsnapshot_run resps fuel i dots =
        waitforsnapshot_run resps (fuel - k) (i + k) (dots + k) := by
  intro k
  induction k with
  | zero =>
    intro fuel i dots _ _
    simp
  | succ m ih =>
    intro fuel i dots hk hdot
    obtain ⟨f, rfl⟩ : ∃ f, fuel = f + 1 := ⟨fuel - 1, by omega⟩
    rw [waitforsnapshot_run]
    have h0 : waitforsnapshot_step (resps i) = SnapPollStep.dot := by
      have h1 := hdot 0 (by omega)
      have he : i + 0 = i := by omega
      rwa [he] at h1
    rw [h0]
    show waitforsnapshot_run resps f (i + 1) (dots + 1)
      = waitforsnapshot_run resps (f + 1 - (m + 1)) (i + (m + 1)) (dots + (m + 1))
    have e1 : f + 1 - (m + 1) = f - m := by omega
    have e2 : i + (m + 1) = i + 1 + m := by omega
    have e3 : dots + (m + 1) = dots + 1 + m := by omega
    rw [e1, e2, e3]
    have hd : ∀ j, j < m →
        waitforsnapshot_step (resps (i + 1 + j)) = SnapPollStep.dot := by
      intro j hj
      have h2 := hdot (j + 1) (by omega)
      have he : i + (j + 1) = i + 1 + j := by omega
      rwa [he] at h2
    exact ih f (i + 1) (dots + 1) (by omega) hd

/-- C6: in `waitforsnapshot`, a status of `completed` terminates the stage
with success; a status of `pending` prints a dot and polls again; any other
status fails the stage immediately.  For a response stream whose first `k`
status queries observe `pending` and whose query `k + 1` observes status
`st`, the stage issues exactly `k + 1` queries and prints exactly `k`
dots, succeeding if `st` is `completed` and failing immediately (no
further query) if `st` is neither `completed` nor `pending`. -/
theorem waitforsnapshot_polling (resps : Nat → List Char) (k fuel : Nat)
    (st : List Char) (hk : k < fuel)
    (hpend : ∀ i, i < k →
      xmlextract ("status".toList) (resps i) = some ("pending".toList))
    (hst : xmlextract ("status".toList) (resps k) = some st) :
    (st = "completed".toList →
      waitforsnapshot_run resps fuel 0 0 = some (true, k + 1, k)) ∧
    (st ≠ "completed".toList → st ≠ "pending".toList →
      waitforsnapshot_run resps fuel 0 0 = some (false, k + 1, k)) := by
  have hdots : ∀ j, j < k →
      waitforsnapshot_step (resps (0 + j)) = SnapPollStep.dot := by
    intro j hj
    have he : 0 + j = j := by omega
    rw [he]
    exact waitforsnapshot_step_pending _ (hpend j hj)
  have hadv := waitforsnapshot_advance resps k fuel 0 0 (by omega) hdots
  obtain ⟨f, hf⟩ : ∃ f, fuel - k = f + 1 := ⟨fuel - k - 1, by omega⟩
  rw [hf] at hadv
  have he0 : 0 + k = k := by omega
  constructor
  · intro hcomp
    subst hcomp
    rw [hadv, waitforsnapshot_run]
    have hs : waitforsnapshot_step (resps (0 + k)) = SnapPollStep.done := by
      rw [he0]
      exact waitforsnapshot_step_completed _ hst
    rw [hs]
    show some (true, 0 + k + 1, 0 + k) = some (true, k + 1, k)
    rw [he0]
  · intro h1 h2
    rw [hadv, waitforsnapshot_run]
    have hs : waitforsnapshot_step (resps (0 + k)) = SnapPollStep.fail := by
      rw [he0]
      exact waitforsnapshot_step_other _ _ hst h1 h2
    rw [hs]
    show some (false, 0 + k + 1, 0 + k) = some (false, k + 1, k)
    rw [he0]

/-- Witness for C6: the status sequence pending, pending, completed yields
success after exactly 3 queries with exactly 2 dots, and the sequence
pending, error aborts with failure after exactly 2 queries (no further
query is issued although the fuel would allow 9). -/
theorem waitforsnapshot_polling_witness :
    waitforsnapshot_run (fun i => if i < 2 then pendingBody else completedBody) 3 0 0
      = some (true, 3, 2) ∧
    waitforsnapshot_run (fun i => if i = 0 then pendingBody else errorBody) 9 0 0
      = some (false, 2, 1) := by
  constructor
  · exact (waitforsnapshot_polling (fun i => if i < 2 then pendingBody else completedBody)
      2 3 ("completed".toList) (by omega)
      (fun i hi => by
        show xmlextract ("status".toList) (if i < 2 then pendingBody else completedBody)
          = some ("pending".toList)
        rw [if_pos hi]
        decide)
      (by
        show xmlextract ("status".toList) (if 2 < 2 then pendingBody else completedBody)
          = some ("completed".toList)
        rw [if_neg (by omega : ¬(2 : Nat) < 2)]
        decide)).1 rfl
  · exact (waitforsnapshot_polling (fun i => if i = 0 then pendingBody else errorBody)
      1 9 ("error".toList) (by omega)
      (fun i hi => by
        have h0 : i = 0 := by omega
        subst h0
        show xmlextract ("status".toList) (if (0 : Nat) = 0 then pendingBody else errorBody)
          = some ("pending".toList)
        rw [if_pos rfl]
        decide)
      (by
        show xmlextract ("status".toList) (if (1 : Nat) = 0 then pendingBody else errorBody)
          = some ("error".toList)
        rw [if_neg (by omega : ¬(1 : Nat) = 0)]
        decide)).2
      (by decide) (by decide)

/-! ### Conversion-task polling (claim C3) -/

set_option maxRecDepth 10000 in
/-- Counterexample to C3 as stated: on a `DescribeConversionTasks` response
body in which the task has entered the explicit error status `cancelled`
(the body carries a `<statusMessage>` and its `<volume>` has no `<id>`),
`waitforimport_step` continues polling -- it does not fail. -/
theorem waitforimport_error_status_cex :
    waitforimport_step importErrorBody
        = ImportPollStep.keepPolling ("import failed".toList) ∧
    waitforimport_step importErrorBody ≠ ImportPollStep.fail := by
  constructor
  · decide
  · decide

/-- C3 amended: in `waitforimport`, a poll response indicating an explicit
error status does not abort the stage; the stage fails only when the
response lacks a `<volume>` tag or lacks a `<statusMessage>` tag.  In
particular, every response carrying both a `<volume>` and a
`<statusMessage>` never makes the step fail (it either succeeds on a
volume id or keeps polling). -/
theorem waitforimport_fail_needs_missing_tag (resp v m : List Char)
    (hv : xmlextract ("volume".toList) resp = some v)
    (hm : xmlextract ("statusMessage".toList) resp = some m) :
    waitforimport_step resp ≠ ImportPollStep.fail := by
  have hstat : importStatusStep resp = ImportPollStep.keepPolling m := by
    unfold importStatusStep
    rw [hm]
  unfold waitforimport_step
  rw [hv]
  show (if hasSub "<state>active</state>".toList resp then importStatusStep resp
    else match xmlextract ("id".toList) v with
      | some volid => ImportPollStep.done volid
      | none => importStatusStep resp) ≠ ImportPollStep.fail
  by_cases ha : hasSub "<state>active</state>".toList resp
  · rw [if_pos ha, hstat]
    simp
  · rw [if_neg ha]
    cases hid : xmlextract ("id".toList) v with
    | some volid => simp
    | none =>
      show importStatusStep resp ≠ ImportPollStep.fail
      rw [hstat]
      simp

set_option maxRecDepth 10000 in
/-- Witness for the amended C3, at the error-status body. -/
theorem waitforimport_fail_needs_missing_tag_witness :
    waitforimport_step importErrorBody ≠ ImportPollStep.fail :=
  waitforimport_fail_needs_missing_tag importErrorBody
    ("<size>10</size>".toList) ("import failed".toList) (by decide) (by decide)

/-! ### `readkeys` (claim C4) -/

theorem eolFree_ne (c : Char) (h : eolFree c = true) : ¬c = '\r' ∧ ¬c = '\n' := by
  simpa [eolFree] using h

theorem takeWhile_all {p : Char → Bool} (l : List Char)
    (hl : ∀ c ∈ l, p c = true) : l.takeWhile p = l :=
  List.takeWhile_eq_self_iff.mpr hl

theorem processLine_noEol (chunk : List Char) (h : noEol chunk) :
    processLine chunk = LineResult.missingEol := by
  simp only [processLine]
  rw [takeWhile_all chunk h]
  simp

theorem readkeysGo_line (rest : List Char) (kid ks : Option (List Char)) :
    ∀ (line : List Char), noEol line → ∀ (cap : Nat) (cur : List Char),
      line.length + 1 ≤ cap →
      readkeysGo (line ++ '\n' :: rest) cap cur kid ks
        = lineStep ((cur ++ line) ++ ['\n']) rest kid ks := by
  intro line
  induction line with
  | nil =>
    intro _ cap cur hcap
    show readkeysGo ('\n' :: rest) cap cur kid ks
      = lineStep ((cur ++ []) ++ ['\n']) rest kid ks
    rw [readkeysGo, if_pos (Or.inl rfl), List.append_nil]
    rfl
  | cons c cs ih =>
    intro hline cap cur hcap
    have hc : eolFree c = true := hline c (by simp)
    have hcn : ¬c = '\n' := (eolFree_ne c hc).2
    have hcs : noEol cs := fun x hx => hline x (List.mem_cons.mpr (Or.inr hx))
    have hcap' : cs.length + 1 ≤ cap - 1 := by
      have hlc : (c :: cs).length = cs.length + 1 := List.length_cons c cs
      omega
    show readkeysGo (c :: (cs ++ '\n' :: rest)) cap cur kid ks
      = lineStep ((cur ++ (c :: cs)) ++ ['\n']) rest kid ks
    rw [readkeysGo]
    rw [if_neg (by
      intro hor
      rcases hor with h | h
      · exact hcn h
      · have hlc : (c :: cs).length = cs.length + 1 := List.length_cons c cs
        omega)]
    rw [ih hcs (cap - 1) (cur ++ [c]) hcap']
    rw [List.append_cons cur c cs]

theorem readkeysGo_tail : ∀ (tail : List Char), noEol tail →
    ∀ (cap : Nat) (cur : List Char), noEol cur →
    ∀ (kid ks : Option (List Char)),
      readkeysGo tail cap cur kid ks = some (kid, ks) := by
  intro tail
  induction tail with
  | nil =>
    intro _ cap cur hcur kid ks
    rw [readkeysGo]
    by_cases hc : cur = []
    · rw [if_pos hc]
    · rw [if_neg hc, processLine_noEol cur hcur]
      rfl
  | cons c cs ih =>
    intro htail cap cur hcur kid ks
    have hc : eolFree c = true := htail c (by simp)
    have hcs : noEol cs := fun x hx => htail x (List.mem_cons.mpr (Or.inr hx))
    have hcur' : noEol (cur ++ [c]) := by
      intro x hx
      rcases List.mem_append.mp hx with h1 | h2
      · exact hcur x h1
      · rcases List.mem_cons.mp h2 with h3 | h4
        · subst h3
          exact hc
        · cases h4
    rw [readkeysGo]
    by_cases hful : c = '\n' ∨ cap ≤ 1
    · rw [if_pos hful, processLine_noEol _ hcur']
      rfl
    · rw [if_neg hful]
      exact ih hcs (cap - 1) (cur ++ [c]) hcur' kid ks

set_option maxRecDepth 10000 in
/-- Counterexample to C4 as stated: the credential file
`ACCESS_KEY_ID=x\nACCESS_KEY_SECRET=y\nZ` has a final line `Z` that is
missing its newline terminator (and is not of the form `KEY=value`), yet
`readkeys` succeeds and returns both key values. -/
theorem readkeys_missing_eol_cex :
    readkeys cexKeyFile = some ("x".toList, "y".toList) ∧
    readkeys cexKeyFile ≠ none := by
  constructor
  · decide
  · decide

theorem processLine_terminated (l : List Char) (hl : noEol l) :
    processLine (l ++ ['\n'])
      = (match lineClass l with
         | none => LineResult.malformed
         | some (false, v) => LineResult.keyId v
         | some (true, v) => LineResult.keySecret v) := by
  simp only [processLine]
  rw [takeWhile_append_stop l '\n' [] hl (by decide)]
  rw [if_neg (by simp)]
  rw [lineClass]
  cases hsp : splitAtChar '=' l with
  | none => rfl
  | some p =>
    obtain ⟨name, v⟩ := p
    by_cases h1 : name = "ACCESS_KEY_ID".toList
    · simp only [if_pos h1]
    · simp only [if_neg h1]
      by_cases h2 : name = "ACCESS_KEY_SECRET".toList
      · simp only [if_pos h2]
      · simp only [if_neg h2]

theorem readkeysGo_mkFile : ∀ (lines : List (List Char)),
    (∀ l ∈ lines, noEol l ∧ l.length ≤ 1022) →
    ∀ (tail : List Char), noEol tail → ∀ (kid ks : Option (List Char)),
      readkeysGo (mkFile lines tail) 1023 [] kid ks = applyLines lines kid ks := by
  intro lines
  induction lines with
  | nil =>
    intro _ tail htail kid ks
    show readkeysGo tail 1023 [] kid ks = some (kid, ks)
    exact readkeysGo_tail tail htail 1023 []
      (fun x hx => absurd hx (List.not_mem_nil x)) kid ks
  | cons l rest ih =>
    intro hwf tail htail kid ks
    have hl : noEol l := (hwf l (by simp)).1
    have hlen : l.length ≤ 1022 := (hwf l (by simp)).2
    have hrest : ∀ x ∈ rest, noEol x ∧ x.length ≤ 1022 :=
      fun x hx => hwf x (List.mem_cons.mpr (Or.inr hx))
    show readkeysGo (l ++ '\n' :: mkFile rest tail) 1023 [] kid ks
      = applyLines (l :: rest) kid ks
    rw [readkeysGo_line (mkFile rest tail) kid ks l hl 1023 [] (by omega)]
    rw [lineStep, List.nil_append]
    rw [processLine_terminated l hl]
    rw [applyLines]
    cases hc : lineClass l with
    | none => rfl
    | some p =>
      obtain ⟨b, v⟩ := p
      cases b
      · cases kid with
        | some w => rfl
        | none =>
          show readkeysGo (mkFile rest tail) 1023 [] (some v) ks
            = applyLines rest (some v) ks
          exact ih hrest tail htail (some v) ks
      · cases ks with
        | some w => rfl
        | none =>
          show readkeysGo (mkFile rest tail) 1023 [] kid (some v)
            = applyLines rest kid (some v)
          exact ih hrest tail htail kid (some v)

theorem applyLines_malformed : ∀ (lines : List (List Char))
    (kid ks : Option (List Char)),
    (∃ l ∈ lines, lineClass l = none) → applyLines lines kid ks = none := by
  intro lines
  induction lines with
  | nil =>
    intro kid ks h
    obtain ⟨l, hl, _⟩ := h
    exact absurd hl (List.not_mem_nil l)
  | cons l rest ih =>
    intro kid ks h
    rw [applyLines]
    cases hc : lineClass l with
    | none => rfl
    | some p =>
      obtain ⟨b, v⟩ := p
      have hr : ∃ x ∈ rest, lineClass x = none := by
        obtain ⟨x, hx, hxc⟩ := h
        rcases List.mem_cons.mp hx with h1 | h2
        · subst h1
          rw [hc] at hxc
          exact absurd hxc (by simp)
        · exact ⟨x, h2, hxc⟩
      cases b
      · cases kid with
        | some w => rfl
        | none =>
          show applyLines rest (some v) ks = none
          exact ih (some v) ks hr
      · cases ks with
        | some w => rfl
        | none =>
          show applyLines rest kid (some v) = none
          exact ih kid (some v) hr

theorem applyLines_dup_id : ∀ (lines : List (List Char)) (w : List Char)
    (ks : Option (List Char)), idValues lines ≠ [] →
    applyLines lines (some w) ks = none := by
  intro lines
  induction lines with
  | nil =>
    intro w ks h
    exact absurd rfl h
  | cons l rest ih =>
    intro w ks h
    rw [applyLines]
    cases hc : lineClass l with
    | none => rfl
    | some p =>
      obtain ⟨b, v⟩ := p
      cases b
      · rfl
      · cases ks with
        | some u => rfl
        | none =>
          show applyLines rest (some w) (some v) = none
          have hid : idValues (l :: rest) = idValues rest := by rw [idValues, hc]
          exact ih w (some v) (fun he => h (hid.trans he))

theorem applyLines_dup_secret : ∀ (lines : List (List Char)) (w : List Char)
    (kid : Option (List Char)), secretValues lines ≠ [] →
    applyLines lines kid (some w) = none := by
  intro lines
  induction lines with
  | nil =>
    intro w kid h
    exact absurd rfl h
  | cons l rest ih =>
    intro w kid h
    rw [applyLines]
    cases hc : lineClass l with
    | none => rfl
    | some p =>
      obtain ⟨b, v⟩ := p
      cases b
      · cases kid with
        | some u => rfl
        | none =>
          show applyLines rest (some v) (some w) = none
          have hsec : secretValues (l :: rest) = secretValues rest := by
            rw [secretValues, hc]
          exact ih w (some v) (fun he => h (hsec.trans he))
      · rfl

theorem applyLines_two_ids : ∀ (lines : List (List Char))
    (kid ks : Option (List Char)),
    2 ≤ (idValues lines).length → applyLines lines kid ks = none := by
  intro lines
  induction lines with
  | nil =>
    intro kid ks h
    simp [idValues] at h
  | cons l rest ih =>
    intro kid ks h
    rw [applyLines]
    cases hc : lineClass l with
    | none => rfl
    | some p =>
      obtain ⟨b, v⟩ := p
      cases b
      · have hid : idValues (l :: rest) = v :: idValues rest := by rw [idValues, hc]
        rw [hid] at h
        cases kid with
        | some w => rfl
        | none =>
          show applyLines rest (some v) ks = none
          refine applyLines_dup_id rest v ks ?_
          intro he
          rw [he] at h
          simp at h
      · have hid : idValues (l :: rest) = idValues rest := by rw [idValues, hc]
        rw [hid] at h
        cases ks with
        | some w => rfl
        | none =>
          show applyLines rest kid (some v) = none
          exact ih kid (some v) h

theorem applyLines_two_secrets : ∀ (lines : List (List Char))
    (kid ks : Option (List Char)),
    2 ≤ (secretValues lines).length → applyLines lines kid ks = none := by
  intro lines
  induction lines with
  | nil =>
    intro kid ks h
    simp [secretValues] at h
  | cons l rest ih =>
    intro kid ks h
    rw [applyLines]
    cases hc : lineClass l with
    | none => rfl
    | some p =>
      obtain ⟨b, v⟩ := p
      cases b
      · have hsec : secretValues (l :: rest) = secretValues rest := by
          rw [secretValues, hc]
        rw [hsec] at h
        cases kid with
        | some w => rfl
        | none =>
          show applyLines rest (some v) ks = none
          exact ih (some v) ks h
      · have hsec : secretValues (l :: rest) = v :: secretValues rest := by
          rw [secretValues, hc]
        rw [hsec] at h
        cases ks with
        | some w => rfl
        | none =>
          show applyLines rest kid (some v) = none
          refine applyLines_dup_secret rest v kid ?_
          intro he
          rw [he] at h
          simp at h

theorem applyLines_no_id : ∀ (lines : List (List Char))
    (ks : Option (List Char)), idValues lines = [] →
    applyLines lines none ks = none ∨
      ∃ ks2, applyLines lines none ks = some (none, ks2) := by
  intro lines
  induction lines with
  | nil =>
    intro ks _
    exact Or.inr ⟨ks, rfl⟩
  | cons l rest ih =>
    intro ks h
    rw [applyLines]
    cases hc : lineClass l with
    | none => exact Or.inl rfl
    | some p =>
      obtain ⟨b, v⟩ := p
      cases b
      · have hid : idValues (l :: rest) = v :: idValues rest := by rw [idValues, hc]
        rw [hid] at h
        exact absurd h (by simp)
      · have hid : idValues (l :: rest) = idValues rest := by rw [idValues, hc]
        rw [hid] at h
        cases ks with
        | some u => exact Or.inl rfl
        | none =>
          show applyLines rest none (some v) = none ∨
            ∃ ks2, applyLines rest none (some v) = some (none, ks2)
          exact ih (some v) h

theorem applyLines_no_secret : ∀ (lines : List (List Char))
    (kid : Option (List Char)), secretValues lines = [] →
    applyLines lines kid none = none ∨
      ∃ kid2, applyLines lines kid none = some (kid2, none) := by
  intro lines
  induction lines with
  | nil =>
    intro kid _
    exact Or.inr ⟨kid, rfl⟩
  | cons l rest ih =>
    intro kid h
    rw [applyLines]
    cases hc : lineClass l with
    | none => exact Or.inl rfl
    | some p =>
      obtain ⟨b, v⟩ := p
      cases b
      · have hsec : secretValues (l :: rest) = secretValues rest := by
          rw [secretValues, hc]
        rw [hsec] at h
        cases kid with
        | some u => exact Or.inl rfl
        | none =>
          show applyLines rest (some v) none = none ∨
            ∃ kid2, applyLines rest (some v) none = some (kid2, none)
          exact ih (some v) h
      · have hsec : secretValues (l :: rest) = v :: secretValues rest := by
          rw [secretValues, hc]
        rw [hsec] at h
        exact absurd h (by simp)

theorem wf_no_keys_nil : ∀ (lines : List (List Char)),
    (∀ l ∈ lines, lineClass l ≠ none) → idValues lines = [] →
    secretValues lines = [] → lines = [] := by
  intro lines
  cases lines with
  | nil =>
    intro _ _ _
    rfl
  | cons l rest =>
    intro hwf hid hsec
    cases hc : lineClass l with
    | none => exact absurd hc (hwf l (by simp))
    | some p =>
      obtain ⟨b, v⟩ := p
      cases b
      · have h1 : idValues (l :: rest) = v :: idValues rest := by rw [idValues, hc]
        rw [h1] at hid
        exact absurd hid (by simp)
      · have h1 : secretValues (l :: rest) = v :: secretValues rest := by
          rw [secretValues, hc]
        rw [h1] at hsec
        exact absurd hsec (by simp)

theorem applyLines_one_secret (lines : List (List Char))
    (kid : Option (List Char)) (s : List Char)
    (hwf : ∀ l ∈ lines, lineClass l ≠ none) (hid : idValues lines = [])
    (hsec : secretValues lines = [s]) :
    applyLines lines kid none = some (kid, some s) := by
  cases lines with
  | nil => exact absurd hsec (by simp [secretValues])
  | cons l rest =>
    rw [applyLines]
    cases hc : lineClass l with
    | none => exact absurd hc (hwf l (by simp))
    | some p =>
      obtain ⟨b, v⟩ := p
      cases b
      · have h1 : idValues (l :: rest) = v :: idValues rest := by rw [idValues, hc]
        rw [h1] at hid
        exact absurd hid (by simp)
      · have h1 : secretValues (l :: rest) = v :: secretValues rest := by
          rw [secretValues, hc]
        have h2 : idValues (l :: rest) = idValues rest := by rw [idValues, hc]
        rw [h1] at hsec
        rw [h2] at hid
        injection hsec with hv hrest
        show applyLines rest kid (some v) = some (kid, some s)
        rw [hv]
        have hr0 : rest = [] := wf_no_keys_nil rest
          (fun x hx => hwf x (List.mem_cons.mpr (Or.inr hx))) hid hrest
        subst hr0
        rfl

theorem applyLines_one_id (lines : List (List Char))
    (ks : Option (List Char)) (i : List Char)
    (hwf : ∀ l ∈ lines, lineClass l ≠ none) (hid : idValues lines = [i])
    (hsec : secretValues lines = []) :
    applyLines lines none ks = some (some i, ks) := by
  cases lines with
  | nil => exact absurd hid (by simp [idValues])
  | cons l rest =>
    rw [applyLines]
    cases hc : lineClass l with
    | none => exact absurd hc (hwf l (by simp))
    | some p =>
      obtain ⟨b, v⟩ := p
      cases b
      · have h1 : idValues (l :: rest) = v :: idValues rest := by rw [idValues, hc]
        have h2 : secretValues (l :: rest) = secretValues rest := by
          rw [secretValues, hc]
        rw [h1] at hid
        rw [h2] at hsec
        injection hid with hv hrest
        show applyLines rest (some v) ks = some (some i, ks)
        rw [hv]
        have hr0 : rest = [] := wf_no_keys_nil rest
          (fun x hx => hwf x (List.mem_cons.mpr (Or.inr hx))) hrest hsec
        subst hr0
        rfl
      · have h1 : secretValues (l :: rest) = v :: secretValues rest := by
          rw [secretValues, hc]
        rw [h1] at hsec
        exact absurd hsec (by simp)

theorem applyLines_success (lines : List (List Char)) (i s : List Char)
    (hwf : ∀ l ∈ lines, lineClass l ≠ none) (hid : idValues lines = [i])
    (hsec : secretValues lines = [s]) :
    applyLines lines none none = some (some i, some s) := by
  cases lines with
  | nil => exact absurd hid (by simp [idValues])
  | cons l rest =>
    rw [applyLines]
    cases hc : lineClass l with
    | none => exact absurd hc (hwf l (by simp))
    | some p =>
      obtain ⟨b, v⟩ := p
      have hwr : ∀ x ∈ rest, lineClass x ≠ none :=
        fun x hx => hwf x (List.mem_cons.mpr (Or.inr hx))
      cases b
      · have h1 : idValues (l :: rest) = v :: idValues rest := by rw [idValues, hc]
        have h2 : secretValues (l :: rest) = secretValues rest := by
          rw [secretValues, hc]
        rw [h1] at hid
        rw [h2] at hsec
        injection hid with hv hrest
        show applyLines rest (some v) none = some (some i, some s)
        rw [hv]
        exact applyLines_one_secret rest (some i) s hwr hrest hsec
      · have h1 : secretValues (l :: rest) = v :: secretValues rest := by
          rw [secretValues, hc]
        have h2 : idValues (l :: rest) = idValues rest := by rw [idValues, hc]
        rw [h1] at hsec
        rw [h2] at hid
        injection hsec with hv hrest
        show applyLines rest none (some v) = some (some i, some s)
        rw [hv]
        exact applyLines_one_id rest (some s) i hwr hid hrest

/-- C4 amended: over every credential file made of newline-terminated
lines (each without CR/LF and fitting the 1023-byte `fgets` read) followed
by an arbitrary unterminated CR/LF-free remainder, `readkeys` fails
whenever any line, at any position, is of neither key form (no `'='`, or a
key name other than the two expected ones), whenever either key appears
more than once or not at all; and it succeeds, returning both values,
whenever every line is a key line and each key appears exactly once (in
either order) -- the unterminated remainder, which the original claim said
must cause failure, does not: it only stops reading with a warning. -/
theorem readkeys_behavior (lines : List (List Char)) (tail : List Char)
    (hlines : ∀ l ∈ lines, noEol l ∧ l.length ≤ 1022)
    (htail : noEol tail) :
    ((∃ l ∈ lines, lineClass l = none) → readkeys (mkFile lines tail) = none) ∧
    (idValues lines = [] → readkeys (mkFile lines tail) = none) ∧
    (secretValues lines = [] → readkeys (mkFile lines tail) = none) ∧
    (2 ≤ (idValues lines).length → readkeys (mkFile lines tail) = none) ∧
    (2 ≤ (secretValues lines).length → readkeys (mkFile lines tail) = none) ∧
    (∀ i s, (∀ l ∈ lines, lineClass l ≠ none) → idValues lines = [i] →
      secretValues lines = [s] → readkeys (mkFile lines tail) = some (i, s)) := by
  have hgo := readkeysGo_mkFile lines hlines tail htail
  refine ⟨?_, ?_, ?_, ?_, ?_, ?_⟩
  · intro h
    rw [readkeys, hgo none none, applyLines_malformed lines none none h]
  · intro h
    rw [readkeys, hgo none none]
    rcases applyLines_no_id lines none h with h2 | ⟨ks2, h2⟩
    · rw [h2]
    · rw [h2]
  · intro h
    rw [readkeys, hgo none none]
    rcases applyLines_no_secret lines none h with h2 | ⟨kid2, h2⟩
    · rw [h2]
    · rw [h2]
      cases kid2 with
      | none => rfl
      | some w => rfl
  · intro h
    rw [readkeys, hgo none none, applyLines_two_ids lines none none h]
  · intro h
    rw [readkeys, hgo none none, applyLines_two_secrets lines none none h]
  · intro i s hwf hid hsec
    rw [readkeys, hgo none none, applyLines_success lines i s hwf hid hsec]

set_option maxRecDepth 10000 in
/-- Witness for the amended C4: success with the keys in either order and
an unterminated remainder, failure on a wrong-key-name line in the middle,
on a duplicated key at the end, and on a missing secret. -/
theorem readkeys_behavior_witness :
    readkeys (mkFile ["ACCESS_KEY_ID=x".toList, "ACCESS_KEY_SECRET=y".toList]
        ("Z".toList)) = some ("x".toList, "y".toList) ∧
    readkeys (mkFile ["ACCESS_KEY_SECRET=y".toList, "ACCESS_KEY_ID=x".toList] [])
      = some ("x".toList, "y".toList) ∧
    readkeys (mkFile ["ACCESS_KEY_ID=x".toList, "FOO=bar".toList,
        "ACCESS_KEY_SECRET=y".toList] []) = none ∧
    readkeys (mkFile ["ACCESS_KEY_ID=x".toList, "ACCESS_KEY_SECRET=y".toList,
        "ACCESS_KEY_ID=z".toList] []) = none ∧
    readkeys (mkFile ["ACCESS_KEY_ID=x".toList] []) = none := by
  refine ⟨?_, ?_, ?_, ?_, ?_⟩
  · exact (readkeys_behavior ["ACCESS_KEY_ID=x".toList, "ACCESS_KEY_SECRET=y".toList]
      ("Z".toList) (by decide) (by decide)).2.2.2.2.2 ("x".toList) ("y".toList)
      (by decide) (by decide) (by decide)
  · exact (readkeys_behavior ["ACCESS_KEY_SECRET=y".toList, "ACCESS_KEY_ID=x".toList]
      [] (by decide) (by decide)).2.2.2.2.2 ("x".toList) ("y".toList)
      (by decide) (by decide) (by decide)
  · exact (readkeys_behavior ["ACCESS_KEY_ID=x".toList, "FOO=bar".toList,
      "ACCESS_KEY_SECRET=y".toList] [] (by decide) (by decide)).1 (by decide)
  · exact (readkeys_behavior ["ACCESS_KEY_ID=x".toList, "ACCESS_KEY_SECRET=y".toList,
      "ACCESS_KEY_ID=z".toList] [] (by decide) (by decide)).2.2.2.1 (by decide)
  · exact (readkeys_behavior ["ACCESS_KEY_ID=x".toList] [] (by decide)
      (by decide)).2.2.1 (by decide)

end BsdEc2ImageUpload
